import Mathlib

/-!
Verification development for the `typescript-ai-agent` repository.

Each TypeScript module relevant to the checked claims is shallowly embedded
as executable Lean definitions, translated clause by clause from the source:

* `DiffViewer` (LCS diff): `lcsLen`, `lcsBack`, `computeLCS`, `removeRun`,
  `diffWalk`, `computeDiff`, `computeStats`.
* `ToolValidation`: `validatePath`, `validateContent`, `validateCommand`,
  `validateTimeout`.
* `AIAgent`: `executeToolCalls`, `runLoop`, `run`.
* `InteractiveConfirmationHandler`: `getUserChoice`, `getUserChoiceForCommand`,
  `requestFileWriteConfirmation`, `requestShellCommandConfirmation`.
* `McpToolDiscovery` / `McpClient`: `isServerAvailable`, `discoverTools`.

External effects (the completion API, the terminal, the network) are modelled
as explicit oracle arguments; unbounded `while` loops are modelled with
explicit fuel, with `none` standing for non-termination within the fuel bound.
-/

namespace TsAgent

/-! ## DiffViewer (src: DiffViewer module)

`DiffLine` mirrors the tagged union
`{type: 'context'|'added'|'removed'; content: string}`. -/

inductive DiffLine where
  | context (content : String)
  | added (content : String)
  | removed (content : String)
deriving DecidableEq, Repr

/-- `DiffStats` mirrors `{additions, deletions, modifications}`. -/
structure DiffStats where
  additions : Nat
  deletions : Nat
  modifications : Nat
deriving DecidableEq, Repr

/-- The DP table of `computeLCS`: `lcsLenF a b fuel i j` is the value
`dp[i][j]` built by the double loop (`dp[i][j] = dp[i-1][j-1] + 1` on a
match, else `max(dp[i-1][j], dp[i][j-1])`, zero on the borders). The `fuel`
argument makes the recursion structural; every call site supplies at least
`i + j`, so the fuel-exhausted case is never reached. -/
def lcsLenF (a b : List String) : Nat → Nat → Nat → Nat
  | _, 0, _ => 0
  | _, _ + 1, 0 => 0
  | 0, _ + 1, _ + 1 => 0
  | fuel + 1, i + 1, j + 1 =>
    if a.getD i "" = b.getD j "" then
      lcsLenF a b fuel i j + 1
    else
      max (lcsLenF a b fuel i (j + 1)) (lcsLenF a b fuel (i + 1) j)

/-- `dp[i][j]` with the fuel filled in. -/
def lcsLen (a b : List String) (i j : Nat) : Nat :=
  lcsLenF a b (i + j) i j

/-- The backward reconstruction loop of `computeLCS`: starting from `(m, n)`,
on a match prepend `a[i-1]` and step to `(i-1, j-1)`; otherwise step towards
the larger of `dp[i-1][j]` and `dp[i][j-1]` (ties go to `j-1`). The loop
stops as soon as `i = 0` or `j = 0`. Structural fuel as in `lcsLenF`. -/
def lcsBackF (a b : List String) : Nat → Nat → Nat → List String
  | _, 0, _ => []
  | _, _ + 1, 0 => []
  | 0, _ + 1, _ + 1 => []
  | fuel + 1, i + 1, j + 1 =>
    if a.getD i "" = b.getD j "" then
      lcsBackF a b fuel i j ++ [a.getD i ""]
    else if lcsLen a b i (j + 1) > lcsLen a b (i + 1) j then
      lcsBackF a b fuel i (j + 1)
    else
      lcsBackF a b fuel (i + 1) j

/-- `computeLCS(a, b)`: reconstruct from the full table corner `(m, n)`. -/
def computeLCS (a b : List String) : List String :=
  lcsBackF a b (a.length + b.length) a.length b.length

/-- The inner `while` of `computeDiff`'s second branch:
`while (i < oldLines.length && oldLines[i] !== lcs[k]) { push removed; i++ }`.
Returns the emitted `removed` lines and the final `i`. Structural fuel;
call sites supply at least `old.length - i`, which suffices. -/
def removeRunF (old : List String) (x : String) : Nat → Nat → List DiffLine × Nat
  | 0, i => ([], i)
  | fuel + 1, i =>
    if i < old.length ∧ old.getD i "" ≠ x then
      let p := removeRunF old x fuel (i + 1)
      (DiffLine.removed (old.getD i "") :: p.1, p.2)
    else
      ([], i)

/-- The removal run with the fuel filled in. -/
def removeRun (old : List String) (x : String) (i : Nat) : List DiffLine × Nat :=
  removeRunF old x (old.length - i) i

/-- The outer `while (i < oldLines.length || j < newLines.length)` walk of
`computeDiff`, with explicit fuel; `none` means the fuel ran out before the
loop finished (the source loop would still be running). The three branches
are translated verbatim: the LCS-match branch (context, advance all three
indices), the added-line branch (inner removal run), and the final branch
(a conditional removal followed by a conditional addition). -/
def diffWalk (old new lcs : List String) : Nat → Nat → Nat → Nat → Option (List DiffLine)
  | 0, _, _, _ => none
  | fuel + 1, i, j, k =>
    if i < old.length ∨ j < new.length then
      if k < lcs.length ∧ i < old.length ∧ old.getD i "" = lcs.getD k "" then
        (diffWalk old new lcs fuel (i + 1) (j + 1) (k + 1)).map
          (fun r => DiffLine.context (old.getD i "") :: r)
      else if k < lcs.length ∧ j < new.length ∧ new.getD j "" = lcs.getD k "" then
        let p := removeRun old (lcs.getD k "") i
        (diffWalk old new lcs fuel p.2 j k).map (fun r => p.1 ++ r)
      else
        let s1 : List DiffLine × Nat :=
          if i < old.length ∧ (lcs.length ≤ k ∨ old.getD i "" ≠ lcs.getD k "") then
            ([DiffLine.removed (old.getD i "")], i + 1)
          else ([], i)
        let s2 : List DiffLine × Nat :=
          if j < new.length ∧ (lcs.length ≤ k ∨ new.getD j "" ≠ lcs.getD k "") then
            ([DiffLine.added (new.getD j "")], j + 1)
          else ([], j)
        (diffWalk old new lcs fuel s1.2 s2.2 k).map (fun r => s1.1 ++ s2.1 ++ r)
    else
      some []

/-- `computeDiff(oldLines, newLines)` as an `Option`: the walk run with fuel
`2·|old| + |new| + 1` (shown sufficient in `diffWalk_isSome`), on the LCS of
the two line lists. -/
def computeDiffO (old new : List String) : Option (List DiffLine) :=
  diffWalk old new (computeLCS old new) (2 * old.length + new.length + 1) 0 0 0

/-- `computeDiff(oldLines, newLines)` (total wrapper; the fuel never runs out). -/
def computeDiff (old new : List String) : List DiffLine :=
  (computeDiffO old new).getD []

/-- Split a character list at newline characters (the groups between the
newlines, in order; the empty list yields one empty group, matching
`"".split('\n') = [""]` in JS). -/
def splitOnNl : List Char → List (List Char)
  | [] => [[]]
  | c :: rest =>
    if c = '\n' then
      [] :: splitOnNl rest
    else
      match splitOnNl rest with
      | [] => [[c]]
      | g :: gs => (c :: g) :: gs

/-- `content.split('\n')`. -/
def splitLines (s : String) : List String :=
  (splitOnNl s.data).map fun cs => String.mk cs

/-- JavaScript falsiness of an optional string (`!oldContent` is true both for
`undefined` and for the empty string). -/
def strFalsy : Option String → Bool
  | none => true
  | some s => s = ""

/-- Raw count of `added` lines in a diff. -/
def countAdded (d : List DiffLine) : Nat :=
  (d.filter fun l => match l with | .added _ => true | _ => false).length

/-- Raw count of `removed` lines in a diff. -/
def countRemoved (d : List DiffLine) : Nat :=
  (d.filter fun l => match l with | .removed _ => true | _ => false).length

/-- `computeStats(oldContent, newContent)`: the special falsy cases, then the
raw `added`/`removed` counts of `computeDiff`, paired into modifications via
`modifications = min(additions, deletions)` and subtracted from both. -/
def computeStats (oldContent newContent : Option String) : DiffStats :=
  if strFalsy oldContent ∧ strFalsy newContent then
    ⟨0, 0, 0⟩
  else if strFalsy oldContent then
    ⟨(splitLines ((newContent).getD "")).length, 0, 0⟩
  else if strFalsy newContent then
    ⟨0, (splitLines ((oldContent).getD "")).length, 0⟩
  else
    let d := computeDiff (splitLines ((oldContent).getD "")) (splitLines ((newContent).getD ""))
    let additions := countAdded d
    let deletions := countRemoved d
    let modifications := min additions deletions
    ⟨additions - modifications, deletions - modifications, modifications⟩

/-- Applying a diff to the old text, as the round-trip claim reads it: keep
`context` lines, drop `removed` lines, insert `added` lines where emitted.
The result is the reconstructed new line sequence. -/
def reconstructNew (d : List DiffLine) : List String :=
  d.filterMap fun l =>
    match l with
    | .context c => some c
    | .added c => some c
    | .removed _ => none

/-! ## ToolValidation (src: ToolValidation module)

`ValidationResult` mirrors
`{isValid: true; errorMessage: null} | {isValid: false; errorMessage: string}`. -/

inductive ValidationResult where
  | valid
  | invalid (errorMessage : String)
deriving DecidableEq, Repr

/-- `r.isValid`. -/
def ValidationResult.isValid : ValidationResult → Bool
  | .valid => true
  | .invalid _ => false

/-- Whether `sub` occurs as a contiguous substring of `s`
(JS `s.includes(sub)`). -/
def strContains (s sub : String) : Prop :=
  sub.data <:+: s.data

instance (s sub : String) : Decidable (strContains s sub) := by
  unfold strContains; infer_instance

/-- `validatePath(path)`: reject empty/blank (`!path || path.trim().length
=== 0`), then reject any path containing `".."`, else accept. -/
def validatePath (path : String) : ValidationResult :=
  if path = "" ∨ path.trim.length = 0 then
    .invalid "Path cannot be empty or blank"
  else if strContains path ".." then
    .invalid "Path traversal not allowed (path contains \x22..\x22)"
  else
    .valid

/-- `validateContent(content)`: reject the empty string, then reject content
longer than `MAX_SIZE = 1_000_000` characters, else accept. -/
def validateContent (content : String) : ValidationResult :=
  if content.length = 0 then
    .invalid "Content cannot be empty"
  else if content.length > 1000000 then
    .invalid "Content exceeds maximum size"
  else
    .valid

/-- `validateCommand(command)`: reject empty/blank, else accept. -/
def validateCommand (command : String) : ValidationResult :=
  if command = "" ∨ command.trim.length = 0 then
    .invalid "Command cannot be empty or blank"
  else
    .valid

/-- `validateTimeout(timeoutSeconds)`: reject `≤ 0`, then reject `> 600`,
else accept. Timeouts are modelled as integers. -/
def validateTimeout (timeoutSeconds : Int) : ValidationResult :=
  if timeoutSeconds ≤ 0 then
    .invalid "Timeout must be greater than 0"
  else if timeoutSeconds > 600 then
    .invalid "Timeout cannot exceed 600 seconds (10 minutes)"
  else
    .valid

/-! ## AIAgent (src: AIAgent module)

A conversation `Msg` mirrors `Message` (`role`, `content`, optional
`tool_calls`, optional `tool_call_id`); an absent `tool_calls` field and a
present empty array behave identically in the orchestrator (`tool_calls &&
tool_calls.length > 0`), so both are the empty list here. -/

structure ToolCall where
  id : String
  name : String
  arguments : String
deriving DecidableEq, Repr

structure Msg where
  role : String
  content : String
  tool_calls : List ToolCall
  tool_call_id : Option String
deriving DecidableEq, Repr

/-- A registered tool's behaviour on the raw `arguments` string:
`JSON.parse(toolCall.function.arguments)` followed by `tool.execute(args)`,
which happen inside one `try`; an `error e` stands for either step raising
`e.message`. -/
def ToolFn := String → Except String String

/-- The tool registry `toolMap` as a lookup by tool name. -/
def Registry := String → Option ToolFn

/-- The single tool-result message `executeToolCalls` pushes for one
`toolCall`: a not-found error when the name is unregistered, the result on
success, and `ERROR: <message>` when parsing or execution raises. -/
def perCallMsg (reg : Registry) (tc : ToolCall) : Msg :=
  match reg tc.name with
  | none =>
      { role := "tool", content := "ERROR: Tool " ++ "\x27" ++ tc.name ++ "\x27" ++ " not found",
        tool_calls := [], tool_call_id := some tc.id }
  | some f =>
      match f tc.arguments with
      | .ok r =>
          { role := "tool", content := r, tool_calls := [], tool_call_id := some tc.id }
      | .error e =>
          { role := "tool", content := "ERROR: " ++ e, tool_calls := [], tool_call_id := some tc.id }

/-- `executeToolCalls(toolCalls)`: the sequential `for` loop over the
requests, each appending its tool-result message to `this.messages`. -/
def executeToolCalls (reg : Registry) (msgs : List Msg) : List ToolCall → List Msg
  | [] => msgs
  | tc :: rest => executeToolCalls reg (msgs ++ [perCallMsg reg tc]) rest

/-- One outcome of `await this.getCompletion()` followed by
`completion.choices[0]?.message`: the awaited call may reject
(`apiError`), the completion may carry no message (`noChoice`), or it
carries an assistant message with `content` (possibly `null`) and its
tool calls. -/
inductive CompletionOutcome where
  | apiError (e : String)
  | noChoice
  | message (content : Option String) (tool_calls : List ToolCall)

/-- The completion service as an oracle from the current conversation. -/
def Oracle := List Msg → CompletionOutcome

/-- An error `run` propagates to its caller. -/
inductive RunError where
  | apiError (e : String)
  | noMessage
  | iterationLimit (maxIterations : Nat)
deriving DecidableEq, Repr

/-- The assistant message `run` pushes for a completion
(`content: message.content || ''`). -/
def assistantMsg (content : Option String) (tcs : List ToolCall) : Msg :=
  { role := "assistant", content := content.getD "", tool_calls := tcs, tool_call_id := none }

/-- The `while (iterations < maxIterations)` loop of `run`, by remaining
iterations: ask the oracle, push the assistant message, dispatch the tool
calls and continue when there are any, otherwise return
`message.content || ''`; when the iterations are exhausted, throw the
`Max iterations (N) reached` error. A rejected completion or a completion
without a message throws out of `run` uncaught. -/
def runLoop (oracle : Oracle) (reg : Registry) (maxIterations : Nat) :
    Nat → List Msg → Except RunError String
  | 0, _ => .error (.iterationLimit maxIterations)
  | rem + 1, msgs =>
    match oracle msgs with
    | .apiError e => .error (.apiError e)
    | .noChoice => .error .noMessage
    | .message c tcs =>
      if tcs.length > 0 then
        runLoop oracle reg maxIterations rem
          (executeToolCalls reg (msgs ++ [assistantMsg c tcs]) tcs)
      else
        .ok (c.getD "")

/-- `AIAgentConfig.maxIterations` resolution in the constructor:
`config.maxIterations || 20` (absent and `0` are both falsy). -/
def resolveMaxIterations : Option Nat → Nat
  | none => 20
  | some n => if n = 0 then 20 else n

/-- The conversation at the start of `run`: the system prompt pushed by the
constructor, then the user message. -/
def initMsgs (systemPrompt userInput : String) : List Msg :=
  [{ role := "system", content := systemPrompt, tool_calls := [], tool_call_id := none },
   { role := "user", content := userInput, tool_calls := [], tool_call_id := none }]

/-- `run(userInput)`: starting from the system prompt pushed by the
constructor, push the user message and enter the iteration loop. -/
def run (oracle : Oracle) (reg : Registry) (systemPrompt userInput : String)
    (maxIterations : Nat) : Except RunError String :=
  runLoop oracle reg maxIterations maxIterations (initMsgs systemPrompt userInput)

/-- One iteration's effect on the conversation: push the assistant message
and, when it carries tool calls, the tool-result messages (when it carries
none, or the completion is malformed, the loop stops and the conversation
is left as is). Used to state which conversation the oracle sees at each
iteration. -/
def stepMsgs (oracle : Oracle) (reg : Registry) (m : List Msg) : List Msg :=
  match oracle m with
  | .message c tcs =>
    if tcs.length > 0 then executeToolCalls reg (m ++ [assistantMsg c tcs]) tcs else m
  | _ => m

/-- The conversation the oracle is shown at iteration `t` (0-based) of the
run starting from `init`. -/
def msgsAt (oracle : Oracle) (reg : Registry) (init : List Msg) : Nat → List Msg
  | 0 => init
  | t + 1 => stepMsgs oracle reg (msgsAt oracle reg init t)

/-- A completion service that always answers with an assistant message:
no transport failure and no empty `choices` array. -/
def GoodOracle (oracle : Oracle) : Prop :=
  ∀ msgs, ∃ c tcs, oracle msgs = .message c tcs

/-! ## InteractiveConfirmationHandler (src: InteractiveConfirmationHandler module)

`Choice` mirrors the interactive menu options; `Conf` mirrors
`FileWriteConfirmation.approved()` / `.rejected()`. The handler state is the
instance fields `alwaysApprove`, `alwaysDeny`, `consecutiveNulls`
(`MAX_CONSECUTIVE_NULLS = 3`). Menu reads are an input list of
`Option Choice` (`none` = unparseable input); the loops return `none` when
the inputs run out with the handler still prompting. `tryIDEApproval`
outcomes are a second oracle indexed by how many IDE attempts happened
(`none` = IDE unavailable / `IDE_NOT_AVAILABLE`). Console output is
dropped. -/

inductive Choice where
  | yes | no | always | deny | view | ide | help
deriving DecidableEq, Repr

inductive Conf where
  | approved | rejected
deriving DecidableEq, Repr

structure HState where
  alwaysApprove : Bool
  alwaysDeny : Bool
  consecutiveNulls : Nat
deriving DecidableEq, Repr

/-- `getUserChoice`: the file-write confirmation loop. On `null` input,
increment `consecutiveNulls` and force `rejected` once it reaches
`MAX_CONSECUTIVE_NULLS = 3`; on any parsed input, reset the counter to zero
and dispatch on the choice (`view`/`help` re-prompt; `ide` consults the IDE
oracle and re-prompts when it yields no outcome). -/
def getUserChoice (ide : Nat → Option Conf) :
    HState → List (Option Choice) → Nat → Option (Conf × HState)
  | _, [], _ => none
  | st, none :: rest, t =>
    let c := st.consecutiveNulls + 1
    if c ≥ 3 then
      some (.rejected, { st with consecutiveNulls := c })
    else
      getUserChoice ide { st with consecutiveNulls := c } rest t
  | st, some ch :: rest, t =>
    let st0 : HState := { st with consecutiveNulls := 0 }
    match ch with
    | .yes => some (.approved, st0)
    | .no => some (.rejected, st0)
    | .always => some (.approved, { st0 with alwaysApprove := true })
    | .deny => some (.rejected, { st0 with alwaysDeny := true })
    | .view => getUserChoice ide st0 rest t
    | .ide =>
      match ide t with
      | some r => some (r, st0)
      | none => getUserChoice ide st0 rest (t + 1)
    | .help => getUserChoice ide st0 rest t

/-- `getUserChoiceForCommand`: the shell-command confirmation loop. On
`null` input it only re-prompts (no counter, no forced rejection);
`yes`/`no`/`always`/`deny` as in the file path; `help` and every other
option re-prompt. -/
def getUserChoiceForCommand :
    HState → List (Option Choice) → Option (Conf × HState)
  | _, [] => none
  | st, none :: rest => getUserChoiceForCommand st rest
  | st, some ch :: rest =>
    match ch with
    | .yes => some (.approved, st)
    | .no => some (.rejected, st)
    | .always => some (.approved, { st with alwaysApprove := true })
    | .deny => some (.rejected, { st with alwaysDeny := true })
    | .help => getUserChoiceForCommand st rest
    | _ => getUserChoiceForCommand st rest

/-- `requestFileWriteConfirmation`: `alwaysDeny` short-circuits to rejected,
then `alwaysApprove` to approved, then a missing TTY auto-approves;
otherwise prompt via `getUserChoice`. -/
def requestFileWriteConfirmation (tty : Bool) (ide : Nat → Option Conf)
    (st : HState) (inputs : List (Option Choice)) : Option (Conf × HState) :=
  if st.alwaysDeny then some (.rejected, st)
  else if st.alwaysApprove then some (.approved, st)
  else if !tty then some (.approved, st)
  else getUserChoice ide st inputs 0

/-- `requestShellCommandConfirmation`: same short-circuits, then prompt via
`getUserChoiceForCommand`. -/
def requestShellCommandConfirmation (tty : Bool) (st : HState)
    (inputs : List (Option Choice)) : Option (Conf × HState) :=
  if st.alwaysDeny then some (.rejected, st)
  else if st.alwaysApprove then some (.approved, st)
  else if !tty then some (.approved, st)
  else getUserChoiceForCommand st inputs

/-! ## McpToolDiscovery / McpClient (src: McpToolDiscovery module, McpClient.ts)

The network is an environment record: the health-probe HTTP response (or a
thrown network error), the `initialize` handshake response (or a thrown /
malformed-response error), and the `tools/list` response (or such an
error). -/

structure McpServerInfo where
  name : String
  version : String
deriving DecidableEq, Repr

structure McpInitResult where
  serverInfo : McpServerInfo
deriving DecidableEq, Repr

/-- A tool definition returned by `tools/list`. -/
structure McpToolDef where
  name : String
  description : String
deriving DecidableEq, Repr

/-- A discovered tool: `new McpToolAdapter(mcpTool, client)`. -/
structure McpAdapter where
  tool : McpToolDef
deriving DecidableEq, Repr

structure McpEnv where
  health : Except String Nat
  init : Except String McpInitResult
  toolsList : Except String (List McpToolDef)

/-- `McpClient.isServerAvailable()`: `axios.get` the health URL and test
`status === 200`; any thrown error is caught and yields `false`. -/
def isServerAvailable (env : McpEnv) : Bool :=
  match env.health with
  | .error _ => false
  | .ok status => status = 200

/-- The body of `discoverTools` up to its surrounding `try`: probe
availability first (a negative probe returns `[]` before the `initialize`
handshake), then `initialize`, then `tools/list`, then wrap each tool in an
adapter; errors of the two awaited calls propagate to the `catch`. -/
def discoverToolsE (env : McpEnv) : Except String (List McpAdapter) :=
  if isServerAvailable env = false then
    .ok []
  else
    match env.init with
    | .error e => .error e
    | .ok _ =>
      match env.toolsList with
      | .error e => .error e
      | .ok ts => .ok (ts.map fun t => ⟨t⟩)

/-- `discoverTools(serverUrl)`: the `catch` turns any error from the body
into the empty tool list (graceful degradation). -/
def discoverTools (env : McpEnv) : List McpAdapter :=
  match discoverToolsE env with
  | .ok ts => ts
  | .error _ => []

end TsAgent

namespace TsAgent

/-! ## Theorems -/

/-- Dropping at an in-range index exposes the element there. -/
theorem drop_cons_getD (l : List String) (i : Nat) (h : i < l.length) :
    l.drop i = l.getD i "" :: l.drop (i + 1) := by
  rw [List.getD_eq_getElem l "" h]
  exact List.drop_eq_getElem_cons h

/-- Shorter takes are sublists of longer takes. -/
theorem take_sublist_take_of_le (l : List String) {n m : Nat} (h : n ≤ m) :
    List.Sublist (l.take n) (l.take m) := by
  have ht := List.take_take n m l
  rw [Nat.min_eq_left h] at ht
  exact ht ▸ List.take_sublist n (l.take m)

/-- The backward LCS reconstruction from `(i, j)` only collects elements of
the first `i` lines of `a`, in order. -/
theorem lcsBackF_sublist (a b : List String) :
    ∀ (fuel i j : Nat), i ≤ a.length →
      List.Sublist (lcsBackF a b fuel i j) (a.take i) := by
  intro fuel
  induction fuel with
  | zero =>
    intro i j _
    cases i <;> cases j <;> exact List.nil_sublist _
  | succ fuel ih =>
    intro i j hi
    cases i with
    | zero => exact List.nil_sublist _
    | succ i =>
      cases j with
      | zero => exact List.nil_sublist _
      | succ j =>
        have hilt : i < a.length := by omega
        simp only [lcsBackF]
        split_ifs with hmatch htie
        · rw [List.take_succ, List.getElem?_eq_getElem hilt]
          have hgd : a.getD i "" = a[i] := List.getD_eq_getElem a "" hilt
          rw [hgd]
          exact (ih i j (by omega)).append (List.Sublist.refl _)
        · exact (ih i (j + 1) (by omega)).trans (take_sublist_take_of_le a (by omega))
        · exact ih (i + 1) j hi

/-- The reconstructed LCS is a subsequence of the old line list. -/
theorem computeLCS_sublist (a b : List String) :
    List.Sublist (computeLCS a b) a := by
  have h := lcsBackF_sublist a b (a.length + b.length) a.length b.length le_rfl
  rwa [List.take_length] at h

/-- The removal run never moves the cursor backwards. -/
theorem removeRunF_le (old : List String) (x : String) :
    ∀ (fuel i : Nat), i ≤ (removeRunF old x fuel i).2 := by
  intro fuel
  induction fuel with
  | zero => intro i; exact le_rfl
  | succ fuel ih =>
    intro i
    simp only [removeRunF]
    split_ifs with h
    · exact le_trans (by omega) (ih (i + 1))
    · exact le_rfl

/-- The removal run never moves the cursor past the end of the lines. -/
theorem removeRunF_le_length (old : List String) (x : String) :
    ∀ (fuel i : Nat), i ≤ old.length → (removeRunF old x fuel i).2 ≤ old.length := by
  intro fuel
  induction fuel with
  | zero => intro i hi; exact hi
  | succ fuel ih =>
    intro i hi
    simp only [removeRunF]
    split_ifs with h
    · exact ih (i + 1) (by omega)
    · exact hi

/-- When its guard holds, the removal run makes strict progress. -/
theorem removeRunF_progress (old : List String) (x : String) (fuel i : Nat)
    (hi : i < old.length) (hne : old.getD i "" ≠ x) (hf : 1 ≤ fuel) :
    i < (removeRunF old x fuel i).2 := by
  cases fuel with
  | zero => omega
  | succ fuel =>
    simp only [removeRunF]
    rw [if_pos ⟨hi, hne⟩]
    exact lt_of_lt_of_le (Nat.lt_succ_self i) (removeRunF_le old x fuel (i + 1))

/-- Advancing the old-lines cursor past a line that is not the current LCS
head preserves the walk invariant. -/
theorem sublist_drop_succ (lcs old : List String) (k i : Nat)
    (hinv : List.Sublist (lcs.drop k) (old.drop i)) (hi : i < old.length)
    (h : lcs.length ≤ k ∨ old.getD i "" ≠ lcs.getD k "") :
    List.Sublist (lcs.drop k) (old.drop (i + 1)) := by
  cases h with
  | inl hk =>
    rw [List.drop_eq_nil_of_le hk]
    exact List.nil_sublist _
  | inr hne =>
    by_cases hk : k < lcs.length
    · rw [drop_cons_getD lcs k hk] at hinv
      rw [drop_cons_getD old i hi] at hinv
      rw [drop_cons_getD lcs k hk]
      cases List.cons_sublist_cons'.mp hinv with
      | inl h' => exact h'
      | inr h' => exact absurd h'.1.symm hne
    · push_neg at hk
      rw [List.drop_eq_nil_of_le hk]
      exact List.nil_sublist _

/-- The removal run preserves the walk invariant when it skips towards the
current LCS head. -/
theorem removeRunF_sublist (lcs old : List String) (k : Nat) :
    ∀ (fuel i : Nat), List.Sublist (lcs.drop k) (old.drop i) →
      List.Sublist (lcs.drop k)
        (old.drop ((removeRunF old (lcs.getD k "") fuel i).2)) := by
  intro fuel
  induction fuel with
  | zero => intro i hinv; exact hinv
  | succ fuel ih =>
    intro i hinv
    simp only [removeRunF]
    split_ifs with h
    · exact ih (i + 1) (sublist_drop_succ lcs old k i hinv h.1 (Or.inr h.2))
    · exact hinv

/-- Mapping a function over an option preserves definedness. -/
theorem isSome_map_of (o : Option (List DiffLine)) (f : List DiffLine → List DiffLine)
    (h : o.isSome = true) : (o.map f).isSome = true := by
  cases o with
  | none => simp at h
  | some v => rfl

/-- Fuel `2·(|old| − i) + (|new| − j) + 1` suffices for the diff walk from
state `(i, j, k)` whenever the pending LCS tail is a subsequence of the
pending old lines — the invariant the walk maintains. -/
theorem diffWalk_isSome (old new lcs : List String) :
    ∀ (fuel i j k : Nat),
      List.Sublist (lcs.drop k) (old.drop i) →
      2 * (old.length - i) + (new.length - j) + 1 ≤ fuel →
      (diffWalk old new lcs fuel i j k).isSome = true := by
  intro fuel
  induction fuel with
  | zero =>
    intro i j k _ hf
    omega
  | succ fuel ih =>
    intro i j k hinv hf
    by_cases hloop : i < old.length ∨ j < new.length
    case neg =>
      simp [diffWalk, hloop]
    case pos =>
      by_cases hb1 : k < lcs.length ∧ i < old.length ∧ old.getD i "" = lcs.getD k ""
      · have hi : i < old.length := hb1.2.1
        simp only [diffWalk]
        rw [if_pos hloop, if_pos hb1]
        apply isSome_map_of
        apply ih (i + 1) (j + 1) (k + 1)
        · rw [drop_cons_getD lcs k hb1.1] at hinv
          rw [drop_cons_getD old i hi] at hinv
          cases List.cons_sublist_cons'.mp hinv with
          | inl h' => exact List.sublist_of_cons_sublist h'
          | inr h' => exact h'.2
        · omega
      · by_cases hb2 : k < lcs.length ∧ j < new.length ∧ new.getD j "" = lcs.getD k ""
        · have hi : i < old.length := by
            by_contra hge
            push_neg at hge
            rw [List.drop_eq_nil_of_le hge] at hinv
            have hlen : lcs.length ≤ k := List.drop_eq_nil_iff.mp (List.sublist_nil.mp hinv)
            omega
          have hne : old.getD i "" ≠ lcs.getD k "" := fun he => hb1 ⟨hb2.1, hi, he⟩
          simp only [diffWalk]
          rw [if_pos hloop, if_neg hb1, if_pos hb2]
          apply isSome_map_of
          have h1 : i < (removeRun old (lcs.getD k "") i).2 :=
            removeRunF_progress old (lcs.getD k "") (old.length - i) i hi hne (by omega)
          have h2 : (removeRun old (lcs.getD k "") i).2 ≤ old.length :=
            removeRunF_le_length old (lcs.getD k "") (old.length - i) i (by omega)
          have h3 : List.Sublist (lcs.drop k)
              (old.drop ((removeRun old (lcs.getD k "") i).2)) :=
            removeRunF_sublist lcs old k (old.length - i) i hinv
          exact ih _ j k h3 (by omega)
        · simp only [diffWalk]
          rw [if_pos hloop, if_neg hb1, if_neg hb2]
          apply isSome_map_of
          by_cases hc1 : i < old.length ∧ (lcs.length ≤ k ∨ old.getD i "" ≠ lcs.getD k "")
          · by_cases hc2 : j < new.length ∧
                (lcs.length ≤ k ∨ new.getD j "" ≠ lcs.getD k "")
            · rw [if_pos hc1, if_pos hc2]
              exact ih (i + 1) (j + 1) k
                (sublist_drop_succ lcs old k i hinv hc1.1 hc1.2) (by omega)
            · rw [if_pos hc1, if_neg hc2]
              exact ih (i + 1) j k
                (sublist_drop_succ lcs old k i hinv hc1.1 hc1.2)
                (by have := hc1.1; omega)
          · by_cases hc2 : j < new.length ∧
                (lcs.length ≤ k ∨ new.getD j "" ≠ lcs.getD k "")
            · rw [if_neg hc1, if_pos hc2]
              exact ih i (j + 1) k hinv (by have := hc2.1; omega)
            · exfalso
              cases hloop with
              | inl hil =>
                apply hc1
                refine ⟨hil, ?_⟩
                by_cases hk : k < lcs.length
                · exact Or.inr fun he => hb1 ⟨hk, hil, he⟩
                · exact Or.inl (by omega)
              | inr hjl =>
                apply hc2
                refine ⟨hjl, ?_⟩
                by_cases hk : k < lcs.length
                · exact Or.inr fun he => hb2 ⟨hk, hjl, he⟩
                · exact Or.inl (by omega)

/-- C9: the validation predicates decide exactly the spec's conditions:
`validatePath` rejects exactly empty/blank paths and paths containing the
traversal marker `".."`; `validateContent` rejects exactly the empty string
and content over 1,000,000 characters; `validateCommand` rejects exactly
empty/blank commands; `validateTimeout` rejects exactly values `≤ 0` or
`> 600` seconds. -/
theorem claim_C9_validation_exact :
    (∀ path : String,
      (validatePath path).isValid = false ↔
        ((path = "" ∨ path.trim.length = 0) ∨ strContains path "..")) ∧
    (∀ content : String,
      (validateContent content).isValid = false ↔
        (content = "" ∨ content.length > 1000000)) ∧
    (∀ command : String,
      (validateCommand command).isValid = false ↔
        (command = "" ∨ command.trim.length = 0)) ∧
    (∀ t : Int, (validateTimeout t).isValid = false ↔ (t ≤ 0 ∨ t > 600)) := by
  refine ⟨fun path => ?_, fun content => ?_, fun command => ?_, fun t => ?_⟩
  · unfold validatePath
    split_ifs with h1 h2
    · simp [ValidationResult.isValid, h1]
    · simp [ValidationResult.isValid, h2]
    · simp [ValidationResult.isValid, h1, h2]
  · have hlen : content.length = 0 ↔ content = "" := by
      constructor
      · intro h
        cases content with
        | mk data => simp [String.length] at h; simp [h]
      · intro h; simp [h]
    unfold validateContent
    split_ifs with h1 h2
    · simp [ValidationResult.isValid, hlen.mp h1]
    · simp [ValidationResult.isValid, h2]
    · rw [hlen] at h1
      simp [ValidationResult.isValid, h1]
      omega
  · unfold validateCommand
    split_ifs with h1 <;> simp [ValidationResult.isValid, h1]
  · unfold validateTimeout
    split_ifs with h1 h2
    · simp [ValidationResult.isValid, h1]
    · simp [ValidationResult.isValid, h2]
    · simp [ValidationResult.isValid, h1, h2]

/-- C10: `computeDiff` is total — for every pair of finite line sequences
(repeated lines, empty sequences and disjoint sequences included) the
alignment walk finishes within the fuel bound `2·|old| + |new| + 1`, i.e.
it always makes progress and never loops forever. (`computeLCS` is total by
construction: it is a structurally recursive Lean function.) The proof rests
on the invariant that the pending LCS tail stays a subsequence of the
pending old lines, which holds because `computeLCS` returns a subsequence
of the old lines. -/
theorem claim_C10_diff_walk_terminates :
    ∀ a b : List String, (computeDiffO a b).isSome = true := by
  intro a b
  unfold computeDiffO
  apply diffWalk_isSome a b (computeLCS a b) (2 * a.length + b.length + 1) 0 0 0
  · simpa using computeLCS_sublist a b
  · omega

/-- C6: `discoverTools` is fail-soft: a network error on the probe, a
negative probe, a handshake (`initialize`) failure, or a `tools/list`
failure each yield the empty tool list, and every error of the body is
caught (never surfaced); a negative probe yields `[]` no matter what the
handshake and listing stages would have answered, i.e. discovery
short-circuits before the `initialize` handshake. -/
theorem claim_C6_discovery_fail_soft :
    ∀ env : McpEnv,
      (∀ e, env.health = .error e → discoverTools env = []) ∧
      (isServerAvailable env = false →
        ∀ i t, discoverTools { env with init := i, toolsList := t } = []) ∧
      (∀ e, env.init = .error e → discoverTools env = []) ∧
      (∀ e, env.toolsList = .error e → discoverTools env = []) ∧
      (∀ e, discoverToolsE env = .error e → discoverTools env = []) := by
  intro env
  refine ⟨?_, ?_, ?_, ?_, ?_⟩
  · intro e he
    simp [discoverTools, discoverToolsE, isServerAvailable, he]
  · intro hav i t
    simp [discoverTools, discoverToolsE, isServerAvailable] at hav ⊢
    cases hh : env.health with
    | error e => simp [hh]
    | ok status =>
      rw [hh] at hav
      simp at hav
      simp [hh, hav]
  · intro e he
    unfold discoverTools discoverToolsE
    split_ifs with h
    · rfl
    · simp [he]
  · intro e he
    unfold discoverTools discoverToolsE
    split_ifs with h
    · rfl
    · cases hi : env.init with
      | error e2 => simp
      | ok r => simp [he]
  · intro e he
    simp [discoverTools, he]

/-- C6 witness: discovery on a server whose probe throws, and on a server
whose probe is positive but whose handshake throws, both yield `[]`. -/
theorem claim_C6_discovery_fail_soft_witness :
    discoverTools ⟨.error "down", .ok ⟨⟨"srv", "1"⟩⟩, .ok []⟩ = [] ∧
    discoverTools ⟨.ok 200, .error "handshake refused", .error "bad json"⟩ = [] :=
  ⟨(claim_C6_discovery_fail_soft _).1 "down" rfl,
   (claim_C6_discovery_fail_soft _).2.2.1 "handshake refused" rfl⟩

/-- C1 (code bug): on old lines `["a"]` and new lines `["x", "a"]`, the
LCS is `["a"]` but `computeDiff` emits `[context "a", added "a"]` — the
added line `"x"` never appears — so applying the diff to the old text
reconstructs `["a", "a"]`, not the new text `["x", "a"]`: the round-trip
law fails. -/
theorem claim_C1_roundtrip_fails_on_input :
    computeLCS ["a"] ["x", "a"] = ["a"] ∧
    computeDiff ["a"] ["x", "a"] = [.context "a", .added "a"] ∧
    reconstructNew (computeDiff ["a"] ["x", "a"]) = ["a", "a"] ∧
    (["a", "a"] : List String) ≠ ["x", "a"] := by
  refine ⟨by decide, by decide, by decide, by decide⟩

/-- C8: the sticky flags are for the lifetime of the handler instance: with
`alwaysApprove` set (and `alwaysDeny` clear) both entry points return
Approved with the state unchanged and without consuming any menu input, for
every input list; with `alwaysDeny` set both return Rejected likewise; and
choosing `Always` (resp. `Deny`) on either menu loop sets the corresponding
flag while leaving the other flag unchanged. -/
theorem claim_C8_sticky_flags :
    ∀ (st : HState) (tty : Bool) (ide : Nat → Option Conf) (inputs : List (Option Choice)),
      (st.alwaysDeny = false → st.alwaysApprove = true →
        requestFileWriteConfirmation tty ide st inputs = some (.approved, st) ∧
        requestShellCommandConfirmation tty st inputs = some (.approved, st)) ∧
      (st.alwaysDeny = true →
        requestFileWriteConfirmation tty ide st inputs = some (.rejected, st) ∧
        requestShellCommandConfirmation tty st inputs = some (.rejected, st)) ∧
      (∀ rest t,
        getUserChoice ide st (some .always :: rest) t =
          some (.approved, { st with consecutiveNulls := 0, alwaysApprove := true }) ∧
        getUserChoiceForCommand st (some .always :: rest) =
          some (.approved, { st with alwaysApprove := true }) ∧
        getUserChoice ide st (some .deny :: rest) t =
          some (.rejected, { st with consecutiveNulls := 0, alwaysDeny := true }) ∧
        getUserChoiceForCommand st (some .deny :: rest) =
          some (.rejected, { st with alwaysDeny := true })) := by
  intro st tty ide inputs
  refine ⟨fun hd ha => ?_, fun hd => ?_, fun rest t => ?_⟩
  · constructor <;>
      simp [requestFileWriteConfirmation, requestShellCommandConfirmation, hd, ha]
  · constructor <;>
      simp [requestFileWriteConfirmation, requestShellCommandConfirmation, hd]
  · refine ⟨?_, ?_, ?_, ?_⟩ <;>
      simp [getUserChoice, getUserChoiceForCommand]

/-- C8 witness: a fresh handler that chooses `Always` once, then both entry
points approving with no input consulted afterwards. -/
theorem claim_C8_sticky_flags_witness :
    getUserChoice (fun _ => none) ⟨false, false, 0⟩ [some .always] 0 =
      some (.approved, ⟨true, false, 0⟩) ∧
    requestFileWriteConfirmation true (fun _ => none) ⟨true, false, 0⟩ [] =
      some (.approved, ⟨true, false, 0⟩) ∧
    requestShellCommandConfirmation true ⟨true, false, 0⟩ [some .no] =
      some (.approved, ⟨true, false, 0⟩) := by
  have h1 := (claim_C8_sticky_flags ⟨false, false, 0⟩ true (fun _ => none) []).2.2 [] 0
  have h2 := (claim_C8_sticky_flags ⟨true, false, 0⟩ true (fun _ => none) []).1 rfl rfl
  have h3 := (claim_C8_sticky_flags ⟨true, false, 0⟩ true (fun _ => none) [some .no]).1 rfl rfl
  exact ⟨h1.1, h2.1, h3.2⟩

/-- C5 counterexample: from a fresh handler state, three consecutive invalid
inputs on the file-write path force Rejected but leave the consecutive-null
counter at 3 (it is not reset to zero), and on the shell-command path three
consecutive invalid inputs force nothing at all — the loop is still
prompting (`none`) with the state untouched. -/
theorem claim_C5_counterexample :
    getUserChoice (fun _ => none) ⟨false, false, 0⟩ [none, none, none] 0 =
      some (.rejected, ⟨false, false, 3⟩) ∧
    getUserChoiceForCommand ⟨false, false, 0⟩ [none, none, none] = none := by
  constructor <;> rfl

/-- C5 (amended): on the file-write path the 3rd consecutive invalid input
forces Rejected, leaving the counter at 3 rather than resetting it, and any
valid input resets the counter to zero; the shell-command path never forces
Rejected on invalid input and leaves the counter untouched, simply
re-prompting. -/
theorem claim_C5_amended_invalid_input :
    ∀ (st : HState) (rest : List (Option Choice)) (ide : Nat → Option Conf) (t : Nat),
      (2 ≤ st.consecutiveNulls →
        getUserChoice ide st (none :: rest) t =
          some (.rejected, { st with consecutiveNulls := st.consecutiveNulls + 1 })) ∧
      (st.consecutiveNulls = 0 →
        getUserChoice ide st (none :: none :: none :: rest) t =
          some (.rejected, { st with consecutiveNulls := 3 })) ∧
      getUserChoice ide st (some .yes :: rest) t =
        some (.approved, { st with consecutiveNulls := 0 }) ∧
      getUserChoice ide st (some .no :: rest) t =
        some (.rejected, { st with consecutiveNulls := 0 }) ∧
      getUserChoice ide st (some .view :: rest) t =
        getUserChoice ide { st with consecutiveNulls := 0 } rest t ∧
      getUserChoiceForCommand st (none :: rest) = getUserChoiceForCommand st rest := by
  intro st rest ide t
  refine ⟨fun h2 => ?_, fun h0 => ?_, ?_, ?_, ?_, ?_⟩
  · simp only [getUserChoice]
    rw [if_pos (by omega)]
  · obtain ⟨ap, dy, cn⟩ := st
    simp only at h0
    subst h0
    simp only [getUserChoice]
    norm_num
  · simp [getUserChoice]
  · simp [getUserChoice]
  · simp [getUserChoice]
  · simp [getUserChoiceForCommand]

/-- C5 amended witness: the amended statement at a handler state with the
counter at 2 and at a fresh state. -/
theorem claim_C5_amended_invalid_input_witness :
    getUserChoice (fun _ => none) ⟨false, false, 2⟩ [none] 0 =
      some (.rejected, ⟨false, false, 3⟩) ∧
    getUserChoice (fun _ => none) ⟨false, false, 0⟩ [none, none, none] 0 =
      some (.rejected, ⟨false, false, 3⟩) := by
  have h1 := (claim_C5_amended_invalid_input ⟨false, false, 2⟩ [] (fun _ => none) 0).1 (by decide)
  have h2 :=
    (claim_C5_amended_invalid_input ⟨false, false, 0⟩ [] (fun _ => none) 0).2.1 rfl
  exact ⟨h1, h2⟩

/-- The sequential dispatch loop appends exactly the per-call result
messages, in request order, after the existing conversation. -/
theorem executeToolCalls_append_map (reg : Registry) :
    ∀ (calls : List ToolCall) (msgs : List Msg),
      executeToolCalls reg msgs calls = msgs ++ calls.map (perCallMsg reg) := by
  intro calls
  induction calls with
  | nil => intro msgs; simp [executeToolCalls]
  | cons tc rest ih =>
    intro msgs
    simp [executeToolCalls, ih]

/-- The per-call result message always has role `tool` and carries the
correlation id of its request. -/
theorem perCallMsg_role_id (reg : Registry) (tc : ToolCall) :
    (perCallMsg reg tc).role = "tool" ∧ (perCallMsg reg tc).tool_call_id = some tc.id := by
  cases hr : reg tc.name with
  | none => simp [perCallMsg, hr]
  | some f =>
    cases he : f tc.arguments with
    | ok r => simp [perCallMsg, hr, he]
    | error e => simp [perCallMsg, hr, he]

/-- C3: for a request list of `n ≥ 1` tool calls, the dispatch loop appends
exactly `n` tool-result messages after the existing conversation — the
sequential map of the per-call handler over the requests, so each result
depends only on its own request — and the message at offset `idx` has role
`tool` and carries the correlation id of request `idx`, in the same order
as the requests. -/
theorem claim_C3_toolresults_ordered :
    ∀ (reg : Registry) (msgs : List Msg) (calls : List ToolCall), 1 ≤ calls.length →
      executeToolCalls reg msgs calls = msgs ++ calls.map (perCallMsg reg) ∧
      (executeToolCalls reg msgs calls).length = msgs.length + calls.length ∧
      (∀ idx : Nat,
        (executeToolCalls reg msgs calls)[msgs.length + idx]? =
          (calls[idx]?).map (perCallMsg reg)) ∧
      (∀ tc : ToolCall,
        (perCallMsg reg tc).role = "tool" ∧
        (perCallMsg reg tc).tool_call_id = some tc.id) := by
  intro reg msgs calls _
  refine ⟨executeToolCalls_append_map reg calls msgs, ?_, ?_, perCallMsg_role_id reg⟩
  · rw [executeToolCalls_append_map reg calls msgs]
    simp
  · intro idx
    rw [executeToolCalls_append_map reg calls msgs,
      List.getElem?_append_right (by omega)]
    simp [List.getElem?_map]

/-- C3 witness: two tool calls dispatched from an empty conversation with
the empty registry. -/
theorem claim_C3_toolresults_ordered_witness :
    executeToolCalls (fun _ => none) [] [⟨"id1", "t1", "{}"⟩, ⟨"id2", "t2", "{}"⟩] =
      [perCallMsg (fun _ => none) ⟨"id1", "t1", "{}"⟩,
       perCallMsg (fun _ => none) ⟨"id2", "t2", "{}"⟩] ∧
    (executeToolCalls (fun _ => none) [] [⟨"id1", "t1", "{}"⟩, ⟨"id2", "t2", "{}"⟩]).length
      = 0 + 2 := by
  have h := claim_C3_toolresults_ordered (fun _ => none) []
    [⟨"id1", "t1", "{}"⟩, ⟨"id2", "t2", "{}"⟩] (by decide)
  exact ⟨by simpa using h.1, by simpa using h.2.1⟩

/-- C4: an unregistered tool name yields a tool-result message whose content
names the tool and says it was not found; a registered tool whose execution
(or argument parsing) raises `e` yields a tool-result message carrying the
error text; in both cases the loop continues with the next call, and the
orchestrator continues to the next iteration instead of terminating the
run. -/
theorem claim_C4_tool_errors_recovered :
    ∀ (reg : Registry) (tc : ToolCall) (msgs : List Msg) (rest : List ToolCall),
      (reg tc.name = none →
        (perCallMsg reg tc).content =
          "ERROR: Tool " ++ "\x27" ++ tc.name ++ "\x27" ++ " not found" ∧
        strContains (perCallMsg reg tc).content tc.name ∧
        strContains (perCallMsg reg tc).content "not found") ∧
      (∀ (f : ToolFn) (e : String), reg tc.name = some f → f tc.arguments = .error e →
        (perCallMsg reg tc).content = "ERROR: " ++ e ∧
        strContains (perCallMsg reg tc).content e) ∧
      executeToolCalls reg msgs (tc :: rest) =
        executeToolCalls reg (msgs ++ [perCallMsg reg tc]) rest ∧
      (∀ (oracle : Oracle) (maxIterations rem : Nat) (c : Option String)
          (tcs : List ToolCall),
        oracle msgs = .message c tcs → 0 < tcs.length →
        runLoop oracle reg maxIterations (rem + 1) msgs =
          runLoop oracle reg maxIterations rem
            (executeToolCalls reg (msgs ++ [assistantMsg c tcs]) tcs)) := by
  intro reg tc msgs rest
  refine ⟨fun hn => ?_, fun f e hf he => ?_, by simp [executeToolCalls], ?_⟩
  · have hc : (perCallMsg reg tc).content =
        "ERROR: Tool " ++ "\x27" ++ tc.name ++ "\x27" ++ " not found" := by
      simp [perCallMsg, hn]
    refine ⟨hc, ?_, ?_⟩
    · rw [hc]
      exact ⟨("ERROR: Tool " ++ "\x27").data, ("\x27" ++ " not found").data, by
        simp [String.data_append, List.append_assoc]⟩
    · rw [hc]
      exact ⟨("ERROR: Tool " ++ "\x27" ++ tc.name ++ "\x27" ++ " ").data, [], by
        simp [String.data_append, List.append_assoc]⟩
  · have hc : (perCallMsg reg tc).content = "ERROR: " ++ e := by
      simp [perCallMsg, hf, he]
    refine ⟨hc, ?_⟩
    rw [hc]
    exact ⟨("ERROR: ").data, [], by simp [String.data_append]⟩
  · intro oracle maxIterations rem c tcs ho htcs
    simp only [runLoop, ho]
    rw [if_pos htcs]

/-- C4 witness: a call to an unregistered tool `"foo"` and a call to a tool
that raises, dispatched in sequence. -/
theorem claim_C4_tool_errors_recovered_witness :
    (perCallMsg (fun _ => none) ⟨"id9", "foo", "{}"⟩).content =
      "ERROR: Tool " ++ "\x27" ++ "foo" ++ "\x27" ++ " not found" ∧
    (perCallMsg (fun _ => some fun _ => .error "boom") ⟨"id9", "foo", "{}"⟩).content =
      "ERROR: " ++ "boom" ∧
    executeToolCalls (fun _ => none) [] [⟨"id9", "foo", "{}"⟩] =
      executeToolCalls (fun _ => none) ([] ++ [perCallMsg (fun _ => none) ⟨"id9", "foo", "{}"⟩]) [] := by
  have h1 := (claim_C4_tool_errors_recovered (fun _ => none) ⟨"id9", "foo", "{}"⟩ [] []).1 rfl
  have h2 := (claim_C4_tool_errors_recovered (fun _ => some fun _ => .error "boom")
    ⟨"id9", "foo", "{}"⟩ [] []).2.1 (fun _ => .error "boom") "boom" rfl rfl
  have h3 := (claim_C4_tool_errors_recovered (fun _ => none) ⟨"id9", "foo", "{}"⟩ [] []).2.2.1
  exact ⟨h1.1, h2.1, h3⟩

/-- Unrolling the conversation trace by one iteration from the front. -/
theorem msgsAt_shift (oracle : Oracle) (reg : Registry) (msgs : List Msg) :
    ∀ t, msgsAt oracle reg msgs (t + 1) =
      msgsAt oracle reg (stepMsgs oracle reg msgs) t := by
  intro t
  induction t with
  | zero => rfl
  | succ u ih =>
    show stepMsgs oracle reg (msgsAt oracle reg msgs (u + 1)) = _
    rw [ih]
    rfl

/-- With a well-behaved completion service, the loop ends in the
iteration-limit error exactly when every one of the `rem` remaining
completions carries at least one tool call. -/
theorem runLoop_limit_iff (oracle : Oracle) (reg : Registry) (H : GoodOracle oracle)
    (N : Nat) :
    ∀ (rem : Nat) (msgs : List Msg),
      runLoop oracle reg N rem msgs = .error (.iterationLimit N) ↔
        ∀ t < rem, ∀ c tcs,
          oracle (msgsAt oracle reg msgs t) = .message c tcs → 0 < tcs.length := by
  intro rem
  induction rem with
  | zero =>
    intro msgs
    simp [runLoop]
  | succ rem ih =>
    intro msgs
    obtain ⟨c, tcs, hc⟩ := H msgs
    by_cases hl : 0 < tcs.length
    · have hstep : executeToolCalls reg (msgs ++ [assistantMsg c tcs]) tcs =
          stepMsgs oracle reg msgs := by
        simp [stepMsgs, hc, hl]
      have hrun : runLoop oracle reg N (rem + 1) msgs =
          runLoop oracle reg N rem (stepMsgs oracle reg msgs) := by
        simp only [runLoop, hc]
        rw [if_pos hl, hstep]
      rw [hrun, ih]
      constructor
      · intro hAll t ht c2 tcs2 h2
        cases t with
        | zero =>
          simp only [msgsAt] at h2
          rw [hc] at h2
          injection h2 with e1 e2
          subst e2
          exact hl
        | succ u =>
          exact hAll u (by omega) c2 tcs2
            (by rw [← msgsAt_shift]; exact h2)
      · intro hAll t ht c2 tcs2 h2
        exact hAll (t + 1) (by omega) c2 tcs2
          (by rw [msgsAt_shift]; exact h2)
    · have hrun : runLoop oracle reg N (rem + 1) msgs = .ok (c.getD "") := by
        simp only [runLoop, hc]
        rw [if_neg hl]
      rw [hrun]
      constructor
      · intro hbad
        exact absurd hbad (by simp)
      · intro hAll
        exact absurd (hAll 0 (by omega) c tcs (by simpa [msgsAt] using hc)) hl

/-- With a well-behaved completion service, the only error the loop can
produce is the iteration-limit error. -/
theorem runLoop_error_eq (oracle : Oracle) (reg : Registry) (H : GoodOracle oracle)
    (N : Nat) :
    ∀ (rem : Nat) (msgs : List Msg) (err : RunError),
      runLoop oracle reg N rem msgs = .error err → err = .iterationLimit N := by
  intro rem
  induction rem with
  | zero =>
    intro msgs err h
    simp only [runLoop] at h
    exact (Except.error.inj h).symm
  | succ rem ih =>
    intro msgs err h
    obtain ⟨c, tcs, hc⟩ := H msgs
    simp only [runLoop, hc] at h
    by_cases hl : 0 < tcs.length
    · rw [if_pos hl] at h
      exact ih _ err h
    · rw [if_neg hl] at h
      exact absurd h (by simp)

/-- With a well-behaved completion service, the loop returns `s` exactly
when some iteration `t` within the remaining budget produces a
tool-call-free assistant message with effective content `s`, and every
earlier iteration produced tool calls (i.e. `s` comes from the first
tool-call-free assistant message). -/
theorem runLoop_ok_iff (oracle : Oracle) (reg : Registry) (H : GoodOracle oracle)
    (N : Nat) :
    ∀ (rem : Nat) (msgs : List Msg) (s : String),
      runLoop oracle reg N rem msgs = .ok s ↔
        ∃ t, t < rem ∧ ∃ c tcs,
          oracle (msgsAt oracle reg msgs t) = .message c tcs ∧ tcs.length = 0 ∧
          s = c.getD "" ∧
          ∀ u < t, ∀ c2 tcs2,
            oracle (msgsAt oracle reg msgs u) = .message c2 tcs2 → 0 < tcs2.length := by
  intro rem
  induction rem with
  | zero =>
    intro msgs s
    simp [runLoop]
  | succ rem ih =>
    intro msgs s
    obtain ⟨c, tcs, hc⟩ := H msgs
    by_cases hl : 0 < tcs.length
    · have hstep : executeToolCalls reg (msgs ++ [assistantMsg c tcs]) tcs =
          stepMsgs oracle reg msgs := by
        simp [stepMsgs, hc, hl]
      have hrun : runLoop oracle reg N (rem + 1) msgs =
          runLoop oracle reg N rem (stepMsgs oracle reg msgs) := by
        simp only [runLoop, hc]
        rw [if_pos hl, hstep]
      rw [hrun, ih]
      constructor
      · rintro ⟨t, ht, c2, tcs2, h2, hlen, hs, hfirst⟩
        refine ⟨t + 1, by omega, c2, tcs2, by rw [msgsAt_shift]; exact h2, hlen, hs, ?_⟩
        intro u hu c3 tcs3 h3
        cases u with
        | zero =>
          simp only [msgsAt] at h3
          rw [hc] at h3
          injection h3 with e1 e2
          subst e2
          exact hl
        | succ v =>
          exact hfirst v (by omega) c3 tcs3 (by rw [← msgsAt_shift]; exact h3)
      · rintro ⟨t, ht, c2, tcs2, h2, hlen, hs, hfirst⟩
        cases t with
        | zero =>
          simp only [msgsAt] at h2
          rw [hc] at h2
          injection h2 with e1 e2
          subst e2
          omega
        | succ u =>
          refine ⟨u, by omega, c2, tcs2, by rw [← msgsAt_shift]; exact h2, hlen, hs, ?_⟩
          intro v hv c3 tcs3 h3
          exact hfirst (v + 1) (by omega) c3 tcs3 (by rw [msgsAt_shift]; exact h3)
    · have hrun : runLoop oracle reg N (rem + 1) msgs = .ok (c.getD "") := by
        simp only [runLoop, hc]
        rw [if_neg hl]
      rw [hrun]
      constructor
      · intro hok
        refine ⟨0, by omega, c, tcs, by simpa [msgsAt] using hc, by omega,
          (Except.ok.inj hok).symm, ?_⟩
        intro u hu
        omega
      · rintro ⟨t, ht, c2, tcs2, h2, hlen, hs, hfirst⟩
        cases t with
        | zero =>
          simp only [msgsAt] at h2
          rw [hc] at h2
          injection h2 with e1 e2
          subst e1
          subst hs
          rfl
        | succ u =>
          exact absurd (hfirst 0 (by omega) c tcs (by simpa [msgsAt] using hc)) hl

/-- C2 counterexample: a completion whose `choices` array carries no message
makes `run` propagate the no-message error — not the iteration-limit error —
even though no tool-call-free assistant message was produced within the
default bound of 20, refuting both that the iteration-limit error is raised
whenever no terminal message appears within the bound and that it is the
only error `run` propagates to its caller. -/
theorem claim_C2_counterexample :
    run (fun _ => .noChoice) (fun _ => none) "sys" "task" (resolveMaxIterations none) =
      .error .noMessage ∧
    (Except.error RunError.noMessage : Except RunError String) ≠
      .error (.iterationLimit (resolveMaxIterations none)) := by
  constructor
  · rfl
  · simp

/-- C2 (amended): provided every completion succeeds and carries an
assistant message, `run` returns the effective content of the first
tool-call-free assistant message, raises the iteration-limit error exactly
when every completion within the configured bound (default 20) carries tool
calls, and propagates no other error; without that proviso a failed or
message-less completion propagates its own error instead. -/
theorem claim_C2_amended_run_contract :
    ∀ (oracle : Oracle) (reg : Registry) (systemPrompt userInput : String)
      (cfg : Option Nat), GoodOracle oracle →
      (∀ err, run oracle reg systemPrompt userInput (resolveMaxIterations cfg) =
          .error err → err = .iterationLimit (resolveMaxIterations cfg)) ∧
      (run oracle reg systemPrompt userInput (resolveMaxIterations cfg) =
          .error (.iterationLimit (resolveMaxIterations cfg)) ↔
        ∀ t < resolveMaxIterations cfg, ∀ c tcs,
          oracle (msgsAt oracle reg (initMsgs systemPrompt userInput) t) =
            .message c tcs → 0 < tcs.length) ∧
      (∀ s, run oracle reg systemPrompt userInput (resolveMaxIterations cfg) = .ok s ↔
        ∃ t, t < resolveMaxIterations cfg ∧ ∃ c tcs,
          oracle (msgsAt oracle reg (initMsgs systemPrompt userInput) t) =
            .message c tcs ∧ tcs.length = 0 ∧ s = c.getD "" ∧
          ∀ u < t, ∀ c2 tcs2,
            oracle (msgsAt oracle reg (initMsgs systemPrompt userInput) u) =
              .message c2 tcs2 → 0 < tcs2.length) ∧
      resolveMaxIterations none = 20 := by
  intro oracle reg systemPrompt userInput cfg H
  refine ⟨?_, ?_, ?_, rfl⟩
  · intro err
    exact runLoop_error_eq oracle reg H (resolveMaxIterations cfg) _ _ err
  · exact runLoop_limit_iff oracle reg H (resolveMaxIterations cfg) _ _
  · intro s
    exact runLoop_ok_iff oracle reg H (resolveMaxIterations cfg) _ _ s

/-- C2 amended witness: a completion service that immediately answers with
a tool-call-free assistant message makes the default-bound run return its
content. -/
theorem claim_C2_amended_run_contract_witness :
    run (fun _ => .message (some "done") []) (fun _ => none) "sys" "task"
      (resolveMaxIterations none) = .ok "done" := by
  have h := (claim_C2_amended_run_contract (fun _ => .message (some "done") [])
    (fun _ => none) "sys" "task" none
    (fun _ => ⟨some "done", [], rfl⟩)).2.2.1 "done"
  exact h.mpr ⟨0, by decide, some "done", [], rfl, rfl, rfl,
    fun u hu => absurd hu (Nat.not_lt_zero u)⟩

/-- C7: `computeStats` pairs raw added/removed counts into modifications
(`modifications = min`, both raw counts reduced by it); an absent old text
counts every new line as an addition and symmetrically; and the two
concrete scenarios from the spec hold. -/
theorem claim_C7_stats_pairing :
    (∀ o n : String, o ≠ "" → n ≠ "" →
      (computeStats (some o) (some n)).modifications =
        min (countAdded (computeDiff (splitLines o) (splitLines n)))
          (countRemoved (computeDiff (splitLines o) (splitLines n))) ∧
      (computeStats (some o) (some n)).additions =
        countAdded (computeDiff (splitLines o) (splitLines n)) -
          (computeStats (some o) (some n)).modifications ∧
      (computeStats (some o) (some n)).deletions =
        countRemoved (computeDiff (splitLines o) (splitLines n)) -
          (computeStats (some o) (some n)).modifications) ∧
    (∀ s : String, s ≠ "" → computeStats none (some s) = ⟨(splitLines s).length, 0, 0⟩) ∧
    (∀ s : String, s ≠ "" → computeStats (some s) none = ⟨0, (splitLines s).length, 0⟩) ∧
    computeStats (some "a\nb\nc") (some "a\nx\nc") = ⟨0, 0, 1⟩ ∧
    computeStats none (some "line1\nline2") = ⟨2, 0, 0⟩ := by
  refine ⟨fun o n ho hn => ?_, fun s hs => ?_, fun s hs => ?_, by decide, by decide⟩
  · simp [computeStats, strFalsy, ho, hn]
  · simp [computeStats, strFalsy, hs]
  · simp [computeStats, strFalsy, hs]

/-- C7 witness: the general clauses of `claim_C7_stats_pairing` instantiated
at the concrete texts `"a\nb"` / `"b\nc"` and `"z"`. -/
theorem claim_C7_stats_pairing_witness :
    (computeStats (some "a\nb") (some "b\nc")).modifications =
      min (countAdded (computeDiff (splitLines "a\nb") (splitLines "b\nc")))
        (countRemoved (computeDiff (splitLines "a\nb") (splitLines "b\nc"))) ∧
    computeStats none (some "z") = ⟨1, 0, 0⟩ := by
  refine ⟨(claim_C7_stats_pairing.1 "a\nb" "b\nc" (by decide) (by decide)).1, ?_⟩
  have h := claim_C7_stats_pairing.2.1 "z" (by decide)
  simpa using h

end TsAgent
